import Mathlib

/-!
Verification of the responsive masonry layout engine (muminoco/masonry).

The definitions below are a shallow embedding of the JavaScript source:
pixel quantities are rationals, JS arrays are lists, JS `undefined` reads
are `Option.none`, and the asynchronous hook pipeline is explicit state
passing with an `Option` error channel.  Sources embedded:
  - src/core/masonry.js (MasonryLayout: calculateDimensions, layout,
    positionItem, addItems, removeItems, runHooks)
  - src/unnamed/part_004 (core/utils.js: getCustomBreakpoints,
    getCurrentBreakpoint, getBreakpointConfig; core/events.js:
    EventManager.runHooks)
-/

namespace Masonry

/-! ## Breakpoint classifier (core/utils.js) -/

/-- The four ordinal breakpoints, lowest to highest. -/
inductive Breakpoint where
  | mobilePortrait
  | mobileLandscape
  | tablet
  | desktop
deriving DecidableEq

/-- Ordinal position of a breakpoint on the four-level order
mobile-portrait ≤ mobile-landscape ≤ tablet ≤ desktop. -/
def Breakpoint.ordinal : Breakpoint → ℕ
  | .mobilePortrait => 0
  | .mobileLandscape => 1
  | .tablet => 2
  | .desktop => 3

/-- The table of per-breakpoint pixel bounds (`DEFAULT_BREAKPOINTS` has
nested objects `{max}` / `{min,max}`; we flatten the six numeric fields). -/
structure BpTable where
  mpMax : ℚ
  mlMin : ℚ
  mlMax : ℚ
  tMin : ℚ
  tMax : ℚ
  dMin : ℚ
deriving DecidableEq

/-- `DEFAULT_BREAKPOINTS` from core/config.js. -/
def DEFAULT_BREAKPOINTS : BpTable :=
  { mpMax := 479, mlMin := 480, mlMax := 767, tMin := 768, tMax := 991, dMin := 992 }

/-- Optional per-container threshold overrides, already converted to pixels
(the `--masonry-breakpoint-*` custom properties; `none` = property unset). -/
structure BpOverrides where
  tablet : Option ℚ
  mobileLandscape : Option ℚ
  mobilePortrait : Option ℚ
deriving DecidableEq

/-- The width-classification chain of `getCurrentBreakpoint`
(part_004 lines 332-335): first matching upper bound wins. -/
def classifyWidth (w : ℚ) (t : BpTable) : Breakpoint :=
  if w ≤ t.mpMax then .mobilePortrait
  else if w ≤ t.mlMax then .mobileLandscape
  else if w ≤ t.tMax then .tablet
  else .desktop

/-- `getCustomBreakpoints` (part_004 lines 294-321).  The JS code builds
`{ ...DEFAULT_BREAKPOINTS }`: a shallow copy whose four per-breakpoint
objects are the very objects stored in `DEFAULT_BREAKPOINTS`, so every
write of a `.max` / `.min` field goes through to the default table.  We
model that aliasing by returning both the table the caller sees (first
component) and the default table as it stands after the call (second
component); the sharing makes them equal. -/
def getCustomBreakpoints (defaults : BpTable) (ov : BpOverrides) : BpTable × BpTable :=
  let t := defaults
  let t := match ov.tablet with
    | some v => { t with tMax := v, dMin := v + 1 }
    | none => t
  let t := match ov.mobileLandscape with
    | some v => { t with mlMax := v, tMin := v + 1 }
    | none => t
  let t := match ov.mobilePortrait with
    | some v => { t with mpMax := v, mlMin := v + 1 }
    | none => t
  (t, t)

/-- `getCurrentBreakpoint` (part_004 lines 326-336): with a container the
custom breakpoints are consulted (threading the mutation of the default
table through the second component), without one the defaults are used. -/
def getCurrentBreakpoint (w : ℚ) (defaults : BpTable) (ov : Option BpOverrides) :
    Breakpoint × BpTable :=
  match ov with
  | none => (classifyWidth w defaults, defaults)
  | some o =>
    let r := getCustomBreakpoints defaults o
    (classifyWidth w r.1, r.2)

/-! ## Dimension calculator (core/masonry.js, calculateDimensions) -/

/-- The column-sizing part of the resolved breakpoint configuration
consumed by `calculateDimensions`. -/
structure DimConfig where
  useMinWidth : Bool
  columnMinWidth : ℚ
  columns : ℤ
  gapX : ℚ
  gapY : ℚ
deriving DecidableEq

/-- Result of `calculateDimensions`: the column count, the derived column
width and the freshly zeroed column-heights array. -/
structure Dimensions where
  actualColumns : ℤ
  actualColumnWidth : ℚ
  columns : List ℚ
deriving DecidableEq

/-- `calculateDimensions` (core/masonry.js lines 296-328).  In min-width
mode `Math.floor((w+gapX)/(minW+gapX)) || 1` is `if ⌊_⌋ = 0 then 1 else ⌊_⌋`
(the `|| 1` catches the falsy values 0 and NaN), and the result is clamped
by `Math.min` with the item count; fixed-count mode clamps the configured
count the same way.  Column width divides the remaining usable width evenly. -/
def calculateDimensions (containerWidth : ℚ) (cfg : DimConfig) (itemCount : ℕ) :
    Dimensions :=
  if cfg.useMinWidth then
    let maxPossibleColumns : ℤ :=
      if ⌊(containerWidth + cfg.gapX) / (cfg.columnMinWidth + cfg.gapX)⌋ = 0 then 1
      else ⌊(containerWidth + cfg.gapX) / (cfg.columnMinWidth + cfg.gapX)⌋
    let actualColumns : ℤ := min maxPossibleColumns (itemCount : ℤ)
    { actualColumns := actualColumns
      actualColumnWidth :=
        (containerWidth - cfg.gapX * ((actualColumns : ℚ) - 1)) / (actualColumns : ℚ)
      columns := List.replicate actualColumns.toNat 0 }
  else
    let actualColumns : ℤ := min cfg.columns (itemCount : ℤ)
    { actualColumns := actualColumns
      actualColumnWidth :=
        (containerWidth - cfg.gapX * ((actualColumns : ℚ) - 1)) / (actualColumns : ℚ)
      columns := List.replicate actualColumns.toNat 0 }

/-! ## Placement engine (core/masonry.js, positionItem / layout) -/

/-- `Math.min(...l)`: `none` models the `Infinity` returned for an empty
spread, which no rational represents. -/
def jsMinList : List ℚ → Option ℚ
  | [] => none
  | x :: xs => some (xs.foldl min x)

/-- `Math.max(...l)`: `none` models `-Infinity` for an empty spread. -/
def jsMaxList : List ℚ → Option ℚ
  | [] => none
  | x :: xs => some (xs.foldl max x)

/-- `Array.prototype.indexOf`: index of the first occurrence, `-1` when the
value is absent. -/
def jsIndexOf (a : ℚ) : List ℚ → ℤ
  | [] => -1
  | x :: xs =>
    if x = a then 0
    else if jsIndexOf a xs < 0 then -1 else jsIndexOf a xs + 1

/-- `columns.indexOf(Math.min(...columns))` (core/masonry.js lines 478-480):
for the empty array `Math.min()` is `Infinity`, which `indexOf` does not
find, so the selected index is `-1`. -/
def shortestColumnIndex (cols : List ℚ) : ℤ :=
  match jsMinList cols with
  | none => -1
  | some m => jsIndexOf m cols

/-- A JS indexed read `cols[i]`: `none` models `undefined` for an index
outside the array. -/
def listGetI (l : List ℚ) (i : ℤ) : Option ℚ :=
  if 0 ≤ i ∧ i.toNat < l.length then some (l.getD i.toNat 0) else none

/-- `cols[i] += d`: adds into slot `i`.  A write at a negative index lands
on a non-index property and leaves the array's elements unchanged (the
only out-of-range index reachable from `shortestColumnIndex` is `-1`). -/
def listSetAdd (l : List ℚ) (i : ℤ) (d : ℚ) : List ℚ :=
  if 0 ≤ i then l.set i.toNat (l.getD i.toNat 0 + d) else l

/-- A tracked element: identity plus the height the DOM measurement
reports for it once its width is committed. -/
structure Item where
  id : ℕ
  height : ℚ
deriving DecidableEq

/-- The `(left, top, width)` styles the placement engine writes onto an
element; `y = none` models `top` receiving `undefined`. -/
structure Placed where
  id : ℕ
  x : ℚ
  y : Option ℚ
  width : ℚ
deriving DecidableEq

/-- Write a placement onto an element: overwrite the element's existing
styles if it was placed before, otherwise record it. -/
def placeSet (ps : List Placed) (p : Placed) : List Placed :=
  if ps.any (fun q => q.id == p.id) then
    ps.map (fun q => if q.id == p.id then p else q)
  else ps ++ [p]

/-- The styles currently written on the element with the given id. -/
def placementOf (ps : List Placed) (i : ℕ) : Option Placed :=
  ps.find? (fun q => q.id == i)

/-- The engine state relevant to layout: tracked elements in DOM order,
the column-heights array, resolved dimensions, the container height style
and the reentrancy guard. -/
structure MState where
  items : List Item
  columns : List ℚ
  actualColumnWidth : ℚ
  gapX : ℚ
  gapY : ℚ
  containerHeight : Option ℚ
  isLayoutInProgress : Bool
  placements : List Placed
deriving DecidableEq

/-- `positionItem` (core/masonry.js lines 476-502): pick the shortest
column (first index attaining the minimum), write
`left = index * (columnWidth + gapX)`, `top = columns[index]`,
`width = columnWidth`, then accumulate `height + gapY` into that column. -/
def positionItem (s : MState) (it : Item) : MState :=
  let idx := shortestColumnIndex s.columns
  { s with
    placements := placeSet s.placements
      { id := it.id
        x := (idx : ℚ) * (s.actualColumnWidth + s.gapX)
        y := listGetI s.columns idx
        width := s.actualColumnWidth }
    columns := listSetAdd s.columns idx (it.height + s.gapY) }

/-- Observable steps of a layout pass: the two hook phases and the
`masonry:layoutComplete` / mutation events. -/
inductive LayoutEvent where
  | beforeLayoutHooks
  | afterLayoutHooks
  | layoutComplete
  | itemsAdded
  | itemsRemoved
deriving DecidableEq

/-- The body of a full pass (core/masonry.js lines 444-454): zero the
column heights, position every tracked item in order, then set the
container height to `Math.max(...columns)`. -/
def passBody (s : MState) : MState :=
  let s0 := { s with columns := List.replicate s.columns.length 0 }
  let s1 := s0.items.foldl positionItem s0
  { s1 with containerHeight := jsMaxList s1.columns }

/-- `layout` (core/masonry.js lines 434-471): return immediately when a
pass is in progress or no items are tracked; otherwise raise the guard,
run the pass (hook phases and the completion event recorded in the
trace), and lower the guard. -/
def layout (s : MState) : MState × List LayoutEvent :=
  if s.isLayoutInProgress || s.items.isEmpty then (s, [])
  else
    let s1 := { s with isLayoutInProgress := true }
    let s2 := passBody s1
    ({ s2 with isLayoutInProgress := false },
     [LayoutEvent.beforeLayoutHooks, LayoutEvent.afterLayoutHooks,
      LayoutEvent.layoutComplete])

/-- A pass with a reentrant `layout()` call arriving at the suspension
point inside the in-flight pass: the second call executes against the
guarded state, then the first pass runs to completion. -/
def layoutWithReentrantCall (s : MState) : MState × List LayoutEvent :=
  if s.isLayoutInProgress || s.items.isEmpty then (s, [])
  else
    let s1 := { s with isLayoutInProgress := true }
    let r := layout s1
    let s2 := passBody r.1
    ({ s2 with isLayoutInProgress := false },
     r.2 ++ [LayoutEvent.beforeLayoutHooks, LayoutEvent.afterLayoutHooks,
      LayoutEvent.layoutComplete])

/-! ## Mutation API (core/masonry.js, addItems / removeItems) -/

/-- `addItems` (core/masonry.js lines 507-546): append the new elements to
the tracked list, position only the new elements against the current
column heights, then refresh the container height. -/
def addItems (s : MState) (newItems : List Item) : MState × List LayoutEvent :=
  let s1 := { s with items := s.items ++ newItems }
  let s2 := newItems.foldl positionItem s1
  ({ s2 with containerHeight := jsMaxList s2.columns }, [LayoutEvent.itemsAdded])

/-- `items.splice(items.indexOf(item), 1)`: drop the first occurrence. -/
def removeFirst : List Item → Item → List Item
  | [], _ => []
  | x :: xs, it => if x = it then xs else x :: removeFirst xs it

/-- `removeItems` (core/masonry.js lines 551-578): detach each given
element from the tracked list, then run a full layout pass over the
remaining elements. -/
def removeItems (s : MState) (toRemove : List Item) : MState × List LayoutEvent :=
  let r := layout { s with items := toRemove.foldl removeFirst s.items }
  (r.1, r.2 ++ [LayoutEvent.itemsRemoved])

/-- The column-heights trajectory of placing a stream of measured heights
greedily; used to relate the state-level folds of `layout`/`addItems` to
the heights they accumulate. -/
def placeHeights (gapY : ℚ) (cols : List ℚ) : List ℚ → List ℚ
  | [] => cols
  | h :: hs => placeHeights gapY (listSetAdd cols (shortestColumnIndex cols) (h + gapY)) hs

/-! ## Breakpoint configuration resolution (part_004, getBreakpointConfig) -/

/-- A `--masonry-*-min-width` custom property as the code observes it:
whether `getCSSProperty` returned a nonempty string, and what
`convertToPixels` makes of it (0 for an absent or invalid value). -/
structure WidthProp where
  present : Bool
  px : ℚ
deriving DecidableEq

/-- A `--masonry-*-columns` custom property: presence of the raw string and
the result of `parseInt` on it (`none` models `NaN`). -/
structure CountProp where
  present : Bool
  parsed : Option ℤ
deriving DecidableEq

/-- JS truthiness of a `parseInt` result: `NaN` and `0` are falsy. -/
def intTruthy : Option ℤ → Bool
  | none => false
  | some n => decide (n ≠ 0)

/-- A `parseInt(a) || parseInt(b) || ... || d` fallback chain. -/
def jsOrIntChain : List (Option ℤ) → ℤ → ℤ
  | [], d => d
  | a :: rest, d =>
    match a with
    | some n => if n = 0 then jsOrIntChain rest d else n
    | none => jsOrIntChain rest d

/-- The property reads `getBreakpointConfig` makes while resolving the
column mode: the desktop pair, the active breakpoint's own pair, the
three cascade column counts, and the root font size that converts the
literal `'20rem'` default. -/
structure ColumnModeInputs where
  rootFontSize : ℚ
  desktopMinWidth : WidthProp
  desktopColumns : CountProp
  bpMinWidth : WidthProp
  bpColumns : CountProp
  tabletColumns : Option ℤ
  mobileLandscapeColumns : Option ℤ
  mobilePortraitColumns : Option ℤ
deriving DecidableEq

/-- The resolved column mode: minimum-width sizing or a fixed count. -/
inductive ModeConfig where
  | minWidthMode (columnMinWidth : ℚ)
  | fixedCountMode (columns : ℤ)
deriving DecidableEq

/-- The min-width property consulted for the active breakpoint. -/
def minWidthPropFor : Breakpoint → ColumnModeInputs → WidthProp
  | .desktop, inp => inp.desktopMinWidth
  | _, inp => inp.bpMinWidth

/-- The columns property consulted for the active breakpoint. -/
def columnsPropFor : Breakpoint → ColumnModeInputs → CountProp
  | .desktop, inp => inp.desktopColumns
  | _, inp => inp.bpColumns

/-- `hasMinWidth = prop && convertToPixels(prop)` (part_004 lines 352,
381): explicitly set and converting to a nonzero pixel value. -/
def hasMinWidthFor (bp : Breakpoint) (inp : ColumnModeInputs) : Bool :=
  (minWidthPropFor bp inp).present && decide ((minWidthPropFor bp inp).px ≠ 0)

/-- `hasColumns = prop && parseInt(prop)` (part_004 lines 353, 382). -/
def hasColumnsFor (bp : Breakpoint) (inp : ColumnModeInputs) : Bool :=
  (columnsPropFor bp inp).present && intTruthy (columnsPropFor bp inp).parsed

/-- The per-breakpoint column-count cascade (part_004 lines 397-413). -/
def cascadeColumns (bp : Breakpoint) (inp : ColumnModeInputs) : ℤ :=
  match bp with
  | .tablet =>
    jsOrIntChain [inp.bpColumns.parsed, inp.tabletColumns,
      inp.mobileLandscapeColumns, inp.mobilePortraitColumns] 2
  | .mobileLandscape =>
    jsOrIntChain [inp.bpColumns.parsed, inp.mobileLandscapeColumns,
      inp.tabletColumns, inp.mobilePortraitColumns] 2
  | .mobilePortrait =>
    jsOrIntChain [inp.bpColumns.parsed, inp.mobilePortraitColumns,
      inp.mobileLandscapeColumns, inp.tabletColumns] 1
  | .desktop => 0

/-- The column-mode portion of `getBreakpointConfig` (part_004 lines
341-418), with the conflict warning returned as the second component:
when both sizing properties are set, min-width wins and the warning is
emitted; otherwise the count (or its cascade / the `20rem` default) is
used. -/
def getBreakpointConfigMode (bp : Breakpoint) (inp : ColumnModeInputs) :
    ModeConfig × Bool :=
  match bp with
  | .desktop =>
    let warned := hasMinWidthFor .desktop inp && hasColumnsFor .desktop inp
    if hasMinWidthFor .desktop inp then
      (ModeConfig.minWidthMode inp.desktopMinWidth.px, warned)
    else if hasColumnsFor .desktop inp then
      (ModeConfig.fixedCountMode (inp.desktopColumns.parsed.getD 0), warned)
    else
      (ModeConfig.minWidthMode (20 * inp.rootFontSize), warned)
  | bp' =>
    let warned := hasMinWidthFor bp' inp && hasColumnsFor bp' inp
    if hasMinWidthFor bp' inp then
      (ModeConfig.minWidthMode inp.bpMinWidth.px, warned)
    else
      (ModeConfig.fixedCountMode (cascadeColumns bp' inp), warned)

/-! ## Hook pipeline (core/masonry.js runHooks / core/events.js) -/

/-- `runHooks` (core/masonry.js lines 614-620, identically
EventManager.runHooks in core/events.js): run the registered callbacks in
order, each awaited to completion before the next; a callback's effect on
the world `W` persists, and a thrown error `E` stops the pipeline. -/
def runHooks {W E : Type} : List (W → W × Option E) → W → W × Option E
  | [], w => (w, none)
  | c :: rest, w =>
    match c w with
    | (w', none) => runHooks rest w'
    | (w', some e) => (w', some e)

/-- `layout` with its two hook phases explicit (core/masonry.js lines
434-471): the `try`/`finally` lowers the guard on every path, and an
error thrown by a hook aborts the pass and propagates to the caller. -/
def layoutWithHooks {E : Type} (before after : List (MState → MState × Option E))
    (s : MState) : MState × Option E :=
  if s.isLayoutInProgress || s.items.isEmpty then (s, none)
  else
    let r1 := runHooks before { s with isLayoutInProgress := true }
    match r1.2 with
    | some e => ({ r1.1 with isLayoutInProgress := false }, some e)
    | none =>
      let r2 := runHooks after (passBody r1.1)
      ({ r2.1 with isLayoutInProgress := false }, r2.2)

/-- Dimensions produced while zero elements are tracked (desktop min-width
mode, container width 1000, min width 300, gaps 20): the item clamp makes
`actualColumns = 0` and the heights array empty. -/
def zeroItemDims : Dimensions :=
  calculateDimensions 1000
    { useMinWidth := true, columnMinWidth := 300, columns := 3, gapX := 20, gapY := 20 } 0

/-- The engine state right after initialising over an empty container:
no items, and the column-heights vector produced by `zeroItemDims`. -/
def zeroItemState : MState :=
  { items := []
    columns := zeroItemDims.columns
    actualColumnWidth := zeroItemDims.actualColumnWidth
    gapX := 20
    gapY := 20
    containerHeight := none
    isLayoutInProgress := false
    placements := [] }

/-- A concrete idle two-item, two-column state (used by witnesses). -/
def twoColState : MState :=
  { items := [⟨0, 10⟩, ⟨1, 4⟩]
    columns := [0, 0]
    actualColumnWidth := 100
    gapX := 5
    gapY := 5
    containerHeight := none
    isLayoutInProgress := false
    placements := [] }

/-- A concrete idle one-item state (used by witnesses). -/
def idleOneItemState : MState :=
  { items := [⟨0, 10⟩]
    columns := [0]
    actualColumnWidth := 100
    gapX := 5
    gapY := 5
    containerHeight := none
    isLayoutInProgress := false
    placements := [] }

/-- The same one-item state with the reentrancy guard raised. -/
def guardedOneItemState : MState :=
  { idleOneItemState with isLayoutInProgress := true }

/-- A concrete state tracking no elements (used by witnesses). -/
def emptyItemsState : MState :=
  { items := []
    columns := [0, 0]
    actualColumnWidth := 100
    gapX := 5
    gapY := 5
    containerHeight := some 40
    isLayoutInProgress := false
    placements := [] }

/-! ## List helper lemmas -/

theorem foldl_min_cases (xs : List ℚ) : ∀ x : ℚ, xs.foldl min x = x ∨ xs.foldl min x ∈ xs := by
  induction xs with
  | nil => intro x; exact Or.inl rfl
  | cons y ys ih =>
    intro x
    rcases ih (min x y) with h | h
    · rcases min_choice x y with hm | hm
      · exact Or.inl (by rw [List.foldl_cons, h, hm])
      · refine Or.inr ?_
        rw [List.foldl_cons, h, hm]
        exact List.mem_cons_self y ys
    · exact Or.inr (List.mem_cons_of_mem _ (by rw [List.foldl_cons]; exact h))

theorem foldl_min_le (xs : List ℚ) :
    ∀ x c : ℚ, (c = x ∨ c ∈ xs) → xs.foldl min x ≤ c := by
  induction xs with
  | nil =>
    rintro x c (rfl | h)
    · exact le_refl c
    · cases h
  | cons y ys ih =>
    rintro x c (rfl | h)
    · rw [List.foldl_cons]
      exact le_trans (ih (min c y) (min c y) (Or.inl rfl)) (min_le_left _ _)
    · rw [List.foldl_cons]
      rcases List.mem_cons.1 h with rfl | h'
      · exact le_trans (ih (min x c) (min x c) (Or.inl rfl)) (min_le_right _ _)
      · exact ih (min x y) c (Or.inr h')

theorem foldl_max_cases (xs : List ℚ) : ∀ x : ℚ, xs.foldl max x = x ∨ xs.foldl max x ∈ xs := by
  induction xs with
  | nil => intro x; exact Or.inl rfl
  | cons y ys ih =>
    intro x
    rcases ih (max x y) with h | h
    · rcases max_choice x y with hm | hm
      · exact Or.inl (by rw [List.foldl_cons, h, hm])
      · refine Or.inr ?_
        rw [List.foldl_cons, h, hm]
        exact List.mem_cons_self y ys
    · exact Or.inr (List.mem_cons_of_mem _ (by rw [List.foldl_cons]; exact h))

theorem le_foldl_max (xs : List ℚ) :
    ∀ x c : ℚ, (c = x ∨ c ∈ xs) → c ≤ xs.foldl max x := by
  induction xs with
  | nil =>
    rintro x c (rfl | h)
    · exact le_refl c
    · cases h
  | cons y ys ih =>
    rintro x c (rfl | h)
    · rw [List.foldl_cons]
      exact le_trans (le_max_left _ _) (ih (max c y) (max c y) (Or.inl rfl))
    · rw [List.foldl_cons]
      rcases List.mem_cons.1 h with rfl | h'
      · exact le_trans (le_max_right _ _) (ih (max x c) (max x c) (Or.inl rfl))
      · exact ih (max x y) c (Or.inr h')

theorem jsMaxList_spec (l : List ℚ) (hne : l ≠ []) :
    ∃ M, jsMaxList l = some M ∧ M ∈ l ∧ ∀ c ∈ l, c ≤ M := by
  cases l with
  | nil => exact absurd rfl hne
  | cons x xs =>
    refine ⟨xs.foldl max x, rfl, ?_, ?_⟩
    · rcases foldl_max_cases xs x with h | h
      · rw [h]; exact List.mem_cons_self x xs
      · exact List.mem_cons_of_mem _ h
    · intro c hc
      rcases List.mem_cons.1 hc with rfl | h'
      · exact le_foldl_max xs c c (Or.inl rfl)
      · exact le_foldl_max xs x c (Or.inr h')

theorem getD_mem : ∀ (l : List ℚ) (n : ℕ), n < l.length → l.getD n 0 ∈ l := by
  intro l
  induction l with
  | nil => intro n h; simp at h
  | cons x xs ih =>
    intro n h
    cases n with
    | zero => simp
    | succ k =>
      rw [List.getD_cons_succ]
      exact List.mem_cons_of_mem _ (ih k (by simpa using h))

theorem jsIndexOf_spec (a : ℚ) (l : List ℚ) (h : a ∈ l) :
    0 ≤ jsIndexOf a l ∧ (jsIndexOf a l).toNat < l.length ∧
    l.getD (jsIndexOf a l).toNat 0 = a ∧
    ∀ j < (jsIndexOf a l).toNat, l.getD j 0 ≠ a := by
  induction l with
  | nil => cases h
  | cons x xs ih =>
    by_cases hx : x = a
    · refine ⟨by simp [jsIndexOf, hx], by simp [jsIndexOf, hx], by simp [jsIndexOf, hx], ?_⟩
      intro j hj
      simp [jsIndexOf, hx] at hj
    · have ha : a ∈ xs := by
        rcases List.mem_cons.1 h with h' | h'
        · exact absurd h'.symm hx
        · exact h'
      obtain ⟨h0, hlen, hget, hbefore⟩ := ih ha
      have hneg : ¬ jsIndexOf a xs < 0 := not_lt.2 h0
      have hidx : jsIndexOf a (x :: xs) = jsIndexOf a xs + 1 := by
        simp [jsIndexOf, hx, hneg]
      have htn : (jsIndexOf a xs + 1).toNat = (jsIndexOf a xs).toNat + 1 := by omega
      refine ⟨by omega, ?_, ?_, ?_⟩
      · rw [hidx, htn]
        simpa using Nat.succ_lt_succ hlen
      · rw [hidx, htn, List.getD_cons_succ]
        exact hget
      · intro j hj
        rw [hidx, htn] at hj
        cases j with
        | zero => simpa using hx
        | succ k =>
          rw [List.getD_cons_succ]
          exact hbefore k (by omega)

theorem shortestColumnIndex_spec (cols : List ℚ) (hne : cols ≠ []) :
    0 ≤ shortestColumnIndex cols ∧
    (shortestColumnIndex cols).toNat < cols.length ∧
    (∀ j < cols.length, cols.getD (shortestColumnIndex cols).toNat 0 ≤ cols.getD j 0) ∧
    (∀ j < (shortestColumnIndex cols).toNat,
      cols.getD (shortestColumnIndex cols).toNat 0 < cols.getD j 0) := by
  cases cols with
  | nil => exact absurd rfl hne
  | cons x xs =>
    have hmem : xs.foldl min x ∈ x :: xs := by
      rcases foldl_min_cases xs x with h | h
      · rw [h]; exact List.mem_cons_self x xs
      · exact List.mem_cons_of_mem _ h
    have hidx : shortestColumnIndex (x :: xs) = jsIndexOf (xs.foldl min x) (x :: xs) := rfl
    obtain ⟨h0, hlen, hget, hbefore⟩ := jsIndexOf_spec (xs.foldl min x) (x :: xs) hmem
    rw [hidx]
    refine ⟨h0, hlen, ?_, ?_⟩
    · intro j hj
      rw [hget]
      have hjmem : (x :: xs).getD j 0 ∈ x :: xs := getD_mem _ j hj
      rcases List.mem_cons.1 hjmem with h' | h'
      · exact foldl_min_le xs x _ (Or.inl h')
      · exact foldl_min_le xs x _ (Or.inr h')
    · intro j hj
      have hle : xs.foldl min x ≤ (x :: xs).getD j 0 := by
        have hjmem : (x :: xs).getD j 0 ∈ x :: xs :=
          getD_mem _ j (lt_trans hj hlen)
        rcases List.mem_cons.1 hjmem with h' | h'
        · exact foldl_min_le xs x _ (Or.inl h')
        · exact foldl_min_le xs x _ (Or.inr h')
      have hne' : (x :: xs).getD j 0 ≠ xs.foldl min x := hbefore j hj
      rw [hget]
      exact lt_of_le_of_ne hle (fun hle' => hne' hle'.symm)

/-! ## Structural lemmas about the placement folds -/

theorem positionItem_items (s : MState) (it : Item) :
    (positionItem s it).items = s.items := rfl

theorem positionItem_gapY (s : MState) (it : Item) :
    (positionItem s it).gapY = s.gapY := rfl

theorem positionItem_flag (s : MState) (it : Item) :
    (positionItem s it).isLayoutInProgress = s.isLayoutInProgress := rfl

theorem positionItem_columns (s : MState) (it : Item) :
    (positionItem s it).columns =
      listSetAdd s.columns (shortestColumnIndex s.columns) (it.height + s.gapY) := rfl

theorem listSetAdd_length (l : List ℚ) (i : ℤ) (d : ℚ) :
    (listSetAdd l i d).length = l.length := by
  unfold listSetAdd
  split
  · exact List.length_set l _ _
  · rfl

theorem foldl_positionItem_items (its : List Item) :
    ∀ s : MState, (its.foldl positionItem s).items = s.items := by
  induction its with
  | nil => intro s; rfl
  | cons it rest ih =>
    intro s
    rw [List.foldl_cons, ih, positionItem_items]

theorem foldl_positionItem_flag (its : List Item) :
    ∀ s : MState, (its.foldl positionItem s).isLayoutInProgress = s.isLayoutInProgress := by
  induction its with
  | nil => intro s; rfl
  | cons it rest ih =>
    intro s
    rw [List.foldl_cons, ih, positionItem_flag]

theorem foldl_positionItem_columns (its : List Item) :
    ∀ s : MState, (its.foldl positionItem s).columns =
      placeHeights s.gapY s.columns (its.map Item.height) := by
  induction its with
  | nil => intro s; rfl
  | cons it rest ih =>
    intro s
    rw [List.map_cons, List.foldl_cons, ih, placeHeights, positionItem_gapY,
      positionItem_columns]

theorem placeHeights_length (gapY : ℚ) :
    ∀ (hs : List ℚ) (cols : List ℚ), (placeHeights gapY cols hs).length = cols.length := by
  intro hs
  induction hs with
  | nil => intro cols; rfl
  | cons h rest ih =>
    intro cols
    rw [placeHeights, ih, listSetAdd_length]

theorem find?_map_replace (p : Placed) (i : ℕ) (h : i ≠ p.id) :
    ∀ ps : List Placed,
      List.find? (fun q => q.id == i) (ps.map (fun q => if q.id == p.id then p else q)) =
        List.find? (fun q => q.id == i) ps := by
  intro ps
  induction ps with
  | nil => rfl
  | cons q qs ih =>
    rw [List.map_cons]
    by_cases hqp : q.id = p.id
    · have hq1 : (q.id == p.id) = true := by simpa using hqp
      have hqi : (q.id == i) = false := by
        simp only [beq_eq_false_iff_ne]
        intro he
        exact h (by rw [← he, hqp])
      have hpi : (p.id == i) = false := by
        simp only [beq_eq_false_iff_ne]
        exact fun he => h he.symm
      simp only [List.find?_cons, hq1, if_true, hqi, hpi]
      exact ih
    · have hq1 : (q.id == p.id) = false := by simpa using hqp
      simp only [List.find?_cons, hq1, Bool.false_eq_true, if_false]
      cases hqi : (q.id == i)
      · simp only [hqi]
        exact ih
      · simp only [hqi]

theorem find?_append_single (p : Placed) (i : ℕ) (h : i ≠ p.id) :
    ∀ ps : List Placed,
      List.find? (fun q => q.id == i) (ps ++ [p]) = List.find? (fun q => q.id == i) ps := by
  intro ps
  induction ps with
  | nil =>
    have hpi : (p.id == i) = false := by
      simp only [beq_eq_false_iff_ne]
      exact fun he => h he.symm
    simp [List.find?_cons, hpi]
  | cons q qs ih =>
    rw [List.cons_append]
    cases hqi : (q.id == i)
    · simp only [List.find?_cons, hqi]
      exact ih
    · simp only [List.find?_cons, hqi]

theorem placementOf_placeSet_ne (ps : List Placed) (p : Placed) (i : ℕ) (h : i ≠ p.id) :
    placementOf (placeSet ps p) i = placementOf ps i := by
  unfold placeSet placementOf
  split
  · exact find?_map_replace p i h ps
  · exact find?_append_single p i h ps

theorem placementOf_positionItem_ne (s : MState) (it : Item) (i : ℕ) (h : i ≠ it.id) :
    placementOf (positionItem s it).placements i = placementOf s.placements i :=
  placementOf_placeSet_ne s.placements _ i h

theorem placementOf_foldl_ne (its : List Item) :
    ∀ (s : MState) (i : ℕ), i ∉ its.map Item.id →
      placementOf ((its.foldl positionItem s)).placements i = placementOf s.placements i := by
  induction its with
  | nil => intro s i _; rfl
  | cons it rest ih =>
    intro s i hi
    rw [List.map_cons, List.mem_cons] at hi
    push_neg at hi
    rw [List.foldl_cons, ih _ i hi.2, placementOf_positionItem_ne s it i hi.1]

/-! ## Claim theorems -/

/-- C1: In minimum-width mode with a non-empty tracked element list the
computed column count is `floor((usableWidth + gapX) / (minColumnWidth + gapX))`
clamped to at least 1 and at most the number of tracked items; in both
modes the resulting column count lies in `[1, itemCount]`; and the column
width is the usable width minus inter-column gaps, evenly divided across
that count. -/
theorem calculateDimensions_columnCount_spec (cw : ℚ) (cfg : DimConfig) (n : ℕ)
    (hcw : 0 ≤ cw) (hgx : 0 ≤ cfg.gapX) (hmw : 0 < cfg.columnMinWidth)
    (hn : 1 ≤ n) (hcols : 1 ≤ cfg.columns) :
    (cfg.useMinWidth = true →
      (calculateDimensions cw cfg n).actualColumns =
        min (max ⌊(cw + cfg.gapX) / (cfg.columnMinWidth + cfg.gapX)⌋ 1) (n : ℤ)) ∧
    (1 ≤ (calculateDimensions cw cfg n).actualColumns ∧
      (calculateDimensions cw cfg n).actualColumns ≤ (n : ℤ)) ∧
    (calculateDimensions cw cfg n).actualColumnWidth =
      (cw - cfg.gapX * (((calculateDimensions cw cfg n).actualColumns : ℚ) - 1)) /
        ((calculateDimensions cw cfg n).actualColumns : ℚ) := by
  have hf : (0:ℤ) ≤ ⌊(cw + cfg.gapX) / (cfg.columnMinWidth + cfg.gapX)⌋ :=
    Int.floor_nonneg.mpr (div_nonneg (by linarith) (by linarith))
  have hn' : (1:ℤ) ≤ (n : ℤ) := by exact_mod_cast hn
  cases hmode : cfg.useMinWidth
  · refine ⟨(fun hcontra => Bool.noConfusion hcontra), ?_, ?_⟩
    · simp only [calculateDimensions, hmode, Bool.false_eq_true, if_false]
      omega
    · simp only [calculateDimensions, hmode, Bool.false_eq_true, if_false]
  · refine ⟨fun _ => ?_, ?_, ?_⟩
    · simp only [calculateDimensions, hmode, if_true]
      omega
    · simp only [calculateDimensions, hmode, if_true]
      omega
    · simp only [calculateDimensions, hmode, if_true]

/-- Witness for C1 at Scenario A of the spec: container width 1000, min
column width 300, gaps 20, 5 items give 3 columns, within `[1, 5]`. -/
theorem calculateDimensions_columnCount_witness :
    (calculateDimensions 1000
        { useMinWidth := true, columnMinWidth := 300, columns := 3,
          gapX := 20, gapY := 20 } 5).actualColumns = 3 ∧
    (1 ≤ (calculateDimensions 1000
        { useMinWidth := true, columnMinWidth := 300, columns := 3,
          gapX := 20, gapY := 20 } 5).actualColumns ∧
      (calculateDimensions 1000
        { useMinWidth := true, columnMinWidth := 300, columns := 3,
          gapX := 20, gapY := 20 } 5).actualColumns ≤ (5 : ℤ)) := by
  have h := calculateDimensions_columnCount_spec 1000
    { useMinWidth := true, columnMinWidth := 300, columns := 3, gapX := 20, gapY := 20 } 5
    (by norm_num) (by norm_num) (by norm_num) (by norm_num) (by norm_num)
  refine ⟨?_, h.2.1⟩
  rw [h.1 rfl]
  show min (max ⌊((1000 : ℚ) + 20) / (300 + 20)⌋ 1) ((5 : ℕ) : ℤ) = 3
  have h3 : ⌊((1000 : ℚ) + 20) / (300 + 20)⌋ = 3 := by norm_num
  rw [h3]
  decide

/-- C4: For all viewport widths `w1 ≤ w2` and any fixed set of breakpoint
thresholds, the classifier's output for `w2` has ordinal greater than or
equal to its output for `w1` on the four-level breakpoint order. -/
theorem getCurrentBreakpoint_monotone (t : BpTable) (w1 w2 : ℚ) (h : w1 ≤ w2) :
    (classifyWidth w1 t).ordinal ≤ (classifyWidth w2 t).ordinal := by
  unfold classifyWidth
  split_ifs <;> simp only [Breakpoint.ordinal] <;> first | omega | linarith

/-- Witness for C4 at the default thresholds: width 479 (mobile portrait)
against width 763 (mobile landscape). -/
theorem getCurrentBreakpoint_monotone_witness :
    (479 : ℚ) ≤ 763 ∧
    (classifyWidth 479 DEFAULT_BREAKPOINTS).ordinal ≤
      (classifyWidth 763 DEFAULT_BREAKPOINTS).ordinal :=
  ⟨by norm_num, getCurrentBreakpoint_monotone DEFAULT_BREAKPOINTS 479 763 (by norm_num)⟩

theorem layout_inProgress (u : MState) (hu : u.isLayoutInProgress = true) :
    layout u = (u, []) := by
  unfold layout
  rw [hu, Bool.true_or, if_pos rfl]

/-- C2: Each placed element goes to the column of minimal accumulated
height (tie broken by the lowest index), at `x = index * (columnWidth + gapX)`
and `y` equal to that column's height before the placement; the column
then grows by `height + gapY`; and after a full pass the container height
is the maximum over all column heights. -/
theorem positionItem_greedy_spec (s : MState) (it : Item)
    (hne : s.columns ≠ []) (hflag : s.isLayoutInProgress = false)
    (hitems : s.items ≠ []) :
    (0 ≤ shortestColumnIndex s.columns ∧
      (shortestColumnIndex s.columns).toNat < s.columns.length ∧
      (∀ j < s.columns.length,
        s.columns.getD (shortestColumnIndex s.columns).toNat 0 ≤ s.columns.getD j 0) ∧
      (∀ j < (shortestColumnIndex s.columns).toNat,
        s.columns.getD (shortestColumnIndex s.columns).toNat 0 < s.columns.getD j 0)) ∧
    (positionItem s it).placements = placeSet s.placements
      { id := it.id
        x := ((shortestColumnIndex s.columns : ℤ) : ℚ) * (s.actualColumnWidth + s.gapX)
        y := some (s.columns.getD (shortestColumnIndex s.columns).toNat 0)
        width := s.actualColumnWidth } ∧
    (positionItem s it).columns = s.columns.set (shortestColumnIndex s.columns).toNat
      (s.columns.getD (shortestColumnIndex s.columns).toNat 0 + (it.height + s.gapY)) ∧
    (∃ M, (layout s).1.containerHeight = some M ∧
      M ∈ (layout s).1.columns ∧ ∀ c ∈ (layout s).1.columns, c ≤ M) := by
  obtain ⟨h0, hlen, hmin, hstrict⟩ := shortestColumnIndex_spec s.columns hne
  have hy : listGetI s.columns (shortestColumnIndex s.columns) =
      some (s.columns.getD (shortestColumnIndex s.columns).toNat 0) := by
    unfold listGetI
    rw [if_pos ⟨h0, hlen⟩]
  have hset : listSetAdd s.columns (shortestColumnIndex s.columns) (it.height + s.gapY) =
      s.columns.set (shortestColumnIndex s.columns).toNat
        (s.columns.getD (shortestColumnIndex s.columns).toNat 0 + (it.height + s.gapY)) := by
    unfold listSetAdd
    rw [if_pos h0]
  have hie : s.items.isEmpty = false := by
    cases h' : s.items with
    | nil => exact absurd h' hitems
    | cons a l => rfl
  have hguard : (s.isLayoutInProgress || s.items.isEmpty) = false := by
    rw [hflag, hie]
    rfl
  refine ⟨⟨h0, hlen, hmin, hstrict⟩, ?_, ?_, ?_⟩
  · simp only [positionItem, hy]
  · simp only [positionItem, hset]
  · have hcols : (layout s).1.columns.length = s.columns.length := by
      simp only [layout, hguard, Bool.false_eq_true, if_false, passBody]
      rw [foldl_positionItem_columns, placeHeights_length, List.length_replicate]
    have hch : (layout s).1.containerHeight = jsMaxList ((layout s).1.columns) := by
      simp only [layout, hguard, Bool.false_eq_true, if_false, passBody]
    have hne' : (layout s).1.columns ≠ [] := by
      intro hnil
      rw [hnil] at hcols
      exact hne (List.length_eq_zero.mp hcols.symm)
    obtain ⟨M, hM1, hM2, hM3⟩ := jsMaxList_spec _ hne'
    exact ⟨M, by rw [hch, hM1], hM2, hM3⟩

/-- Witness for C2 on a concrete two-column state with a tie at height 0. -/
theorem positionItem_greedy_witness :
    ∃ M, (layout twoColState).1.containerHeight = some M ∧
      M ∈ (layout twoColState).1.columns ∧
      ∀ c ∈ (layout twoColState).1.columns, c ≤ M :=
  (positionItem_greedy_spec twoColState ⟨0, 10⟩ (by decide) rfl (by decide)).2.2.2

/-- C3: `isLayoutInProgress` guards the pass: a `layout()` call arriving
while it is true is a no-op (state unchanged, no hook phase or event), and
a pass with a reentrant `layout()` call at its suspension point produces
exactly the state and trace of a single pass run to completion. -/
theorem layout_reentrancy_spec (s t : MState) (ht : t.isLayoutInProgress = true) :
    layout t = (t, []) ∧ layoutWithReentrantCall s = layout s := by
  refine ⟨layout_inProgress t ht, ?_⟩
  by_cases hg : (s.isLayoutInProgress || s.items.isEmpty) = true
  · unfold layoutWithReentrantCall layout
    rw [if_pos hg, if_pos hg]
  · unfold layoutWithReentrantCall
    rw [if_neg hg]
    simp only [layout_inProgress { s with isLayoutInProgress := true } rfl]
    unfold layout
    rw [if_neg hg]
    rfl

/-- Witness for C3 on concrete states: a guarded single-item state drops
the call; an idle single-item state yields the single-pass result. -/
theorem layout_reentrancy_witness :
    layout guardedOneItemState = (guardedOneItemState, []) ∧
    layoutWithReentrantCall idleOneItemState = layout idleOneItemState :=
  layout_reentrancy_spec idleOneItemState guardedOneItemState rfl

/-- C9: With an empty tracked element list, `layout()` returns immediately:
the state (column heights, container height, guard) is unchanged and no
hook phase or completion event is recorded. -/
theorem layout_emptyItems_noop (s : MState) (h : s.items = []) :
    layout s = (s, []) := by
  unfold layout
  have hie : s.items.isEmpty = true := by rw [h]; rfl
  rw [hie, Bool.or_true, if_pos rfl]

/-- Witness for C9 on a concrete empty-list state. -/
theorem layout_emptyItems_noop_witness :
    layout emptyItemsState = (emptyItemsState, []) :=
  layout_emptyItems_noop emptyItemsState rfl

/-- C5: For every breakpoint with both a minimum-width value and a fixed
column-count value explicitly set, resolution deterministically chooses
minimum-width mode (never the count) and reports the conflict diagnostic. -/
theorem getBreakpointConfigMode_conflict_spec (bp : Breakpoint) (inp : ColumnModeInputs)
    (hmw : hasMinWidthFor bp inp = true) (hc : hasColumnsFor bp inp = true) :
    getBreakpointConfigMode bp inp =
      (ModeConfig.minWidthMode (minWidthPropFor bp inp).px, true) := by
  cases bp <;> simp [getBreakpointConfigMode, hmw, hc, minWidthPropFor]

/-- Property reads with both desktop sizing modes explicitly set (Scenario
E of the spec), used to witness C5. -/
def conflictInputs : ColumnModeInputs :=
  { rootFontSize := 16
    desktopMinWidth := { present := true, px := 320 }
    desktopColumns := { present := true, parsed := some 4 }
    bpMinWidth := { present := false, px := 0 }
    bpColumns := { present := false, parsed := none }
    tabletColumns := none
    mobileLandscapeColumns := none
    mobilePortraitColumns := none }

/-- Witness for C5 on Scenario E: both desktop sizing modes set, min-width
320px wins and the conflict diagnostic fires. -/
theorem getBreakpointConfigMode_conflict_witness :
    getBreakpointConfigMode Breakpoint.desktop conflictInputs =
      (ModeConfig.minWidthMode 320, true) :=
  getBreakpointConfigMode_conflict_spec Breakpoint.desktop conflictInputs
    (by decide) (by decide)

/-- C8 (refuting the purity contract): classifying width 800 with the
default table gives tablet, but one classification for a container that
overrides the tablet bound to 600 writes through the shallow copy into
the default table, after which the same width-800 classification with no
overrides yields desktop. -/
theorem getCustomBreakpoints_mutates_defaults :
    (getCurrentBreakpoint 800 DEFAULT_BREAKPOINTS none).1 = Breakpoint.tablet ∧
    ((getCurrentBreakpoint 800 DEFAULT_BREAKPOINTS
        (some { tablet := some 600, mobileLandscape := none,
                mobilePortrait := none })).2).tMax = 600 ∧
    (getCurrentBreakpoint 800 DEFAULT_BREAKPOINTS
        (some { tablet := some 600, mobileLandscape := none,
                mobilePortrait := none })).2 ≠ DEFAULT_BREAKPOINTS ∧
    (getCurrentBreakpoint 800
        ((getCurrentBreakpoint 800 DEFAULT_BREAKPOINTS
          (some { tablet := some 600, mobileLandscape := none,
                  mobilePortrait := none })).2) none).1 = Breakpoint.desktop := by
  refine ⟨?_, ?_, ?_, ?_⟩ <;> decide

/-- Positioning a single appended element against an empty column-heights
vector: the `-1` index makes the written `top` undefined, leaves the
heights vector empty, and the refreshed container height is the empty
maximum. -/
theorem addItems_singleton_emptyColumns (u : MState) (it : Item) (hu : u.columns = []) :
    (addItems u [it]).1.placements =
      placeSet u.placements
        { id := it.id
          x := ((-1 : ℤ) : ℚ) * (u.actualColumnWidth + u.gapX)
          y := none
          width := u.actualColumnWidth } ∧
    (addItems u [it]).1.columns = [] ∧
    (addItems u [it]).1.containerHeight = none := by
  have hidx : shortestColumnIndex u.columns = -1 := by rw [hu]; rfl
  have hy : listGetI u.columns (shortestColumnIndex u.columns) = none := by rw [hu]; rfl
  have hcols2 : listSetAdd u.columns (shortestColumnIndex u.columns) (it.height + u.gapY) = [] := by
    rw [hidx]
    unfold listSetAdd
    rw [if_neg (by norm_num)]
    exact hu
  refine ⟨?_, ?_, ?_⟩
  · show placeSet u.placements
        { id := it.id
          x := ((shortestColumnIndex u.columns : ℤ) : ℚ) * (u.actualColumnWidth + u.gapX)
          y := listGetI u.columns (shortestColumnIndex u.columns)
          width := u.actualColumnWidth } = _
    rw [hy, hidx]
  · exact hcols2
  · show jsMaxList (listSetAdd u.columns (shortestColumnIndex u.columns)
        (it.height + u.gapY)) = none
    rw [hcols2]
    rfl

/-- C10: From the reachable state produced by computing dimensions with
zero tracked elements (empty column-heights vector), `addItems` drives
`positionItem` to select column index `-1`: the minimum of the empty
vector is not attained, the `y` read is `undefined`, and no well-defined
column height results (the heights vector stays empty and the container
height is the empty maximum). -/
theorem addItems_emptyColumns_outOfRange :
    zeroItemDims.actualColumns = 0 ∧
    zeroItemState.columns = [] ∧
    jsMinList zeroItemState.columns = none ∧
    shortestColumnIndex zeroItemState.columns = -1 ∧
    listGetI zeroItemState.columns (shortestColumnIndex zeroItemState.columns) = none ∧
    (∃ p, placementOf (addItems zeroItemState [⟨7, 50⟩]).1.placements 7 = some p ∧
      p.y = none) ∧
    (addItems zeroItemState [⟨7, 50⟩]).1.columns = [] ∧
    (addItems zeroItemState [⟨7, 50⟩]).1.containerHeight = none := by
  have h3 : ⌊((1000 : ℚ) + 20) / (300 + 20)⌋ = 3 := by norm_num
  have hcols0 : zeroItemDims.actualColumns = 0 := by
    show (min (if ⌊((1000 : ℚ) + 20) / (300 + 20)⌋ = 0 then 1
      else ⌊((1000 : ℚ) + 20) / (300 + 20)⌋) ((0 : ℕ) : ℤ)) = 0
    rw [h3]
    decide
  have hzc : zeroItemState.columns = [] := by
    show List.replicate zeroItemDims.actualColumns.toNat 0 = []
    rw [hcols0]
    rfl
  obtain ⟨hp, hc2, hh⟩ := addItems_singleton_emptyColumns zeroItemState ⟨7, 50⟩ hzc
  refine ⟨hcols0, hzc, by rw [hzc]; rfl, by rw [hzc]; rfl, by rw [hzc]; rfl, ?_, hc2, hh⟩
  refine ⟨{ id := 7
            x := ((-1 : ℤ) : ℚ) * (zeroItemState.actualColumnWidth + zeroItemState.gapX)
            y := none
            width := zeroItemState.actualColumnWidth }, ?_, rfl⟩
  rw [hp]
  rfl

theorem runHooks_append {W E : Type} (pre post : List (W → W × Option E)) :
    ∀ w : W, (runHooks pre w).2 = none →
      runHooks (pre ++ post) w = runHooks post (runHooks pre w).1 := by
  induction pre with
  | nil => intro w _; rfl
  | cons c rest ih =>
    intro w h
    rcases hc : c w with ⟨w', e?⟩
    cases e? with
    | none =>
      have h' : (runHooks rest w').2 = none := by
        have hr : runHooks (c :: rest) w = runHooks rest w' := by
          simp only [runHooks, hc]
        rw [hr] at h
        exact h
      have hr1 : runHooks ((c :: rest) ++ post) w = runHooks (rest ++ post) w' := by
        simp only [List.cons_append, runHooks, hc]
        rfl
      have hr2 : runHooks (c :: rest) w = runHooks rest w' := by
        simp only [runHooks, hc]
      rw [hr1, hr2, ih w' h']
    | some e =>
      exfalso
      have hr : runHooks (c :: rest) w = (w', some e) := by
        simp only [runHooks, hc]
      rw [hr] at h
      cases h

theorem runHooks_abort {W E : Type} (pre post : List (W → W × Option E)) (e : E)
    (w : W) (h : (runHooks pre w).2 = none) :
    runHooks (pre ++ (fun v => (v, some e)) :: post) w = ((runHooks pre w).1, some e) := by
  rw [runHooks_append pre _ w h]
  rfl

/-- C6: Hook callbacks run in registration order, each completed before
the next starts (running an appended registration list continues exactly
where the prefix ended); a throwing callback stops the remaining
callbacks of the phase while the effects of already-run callbacks are
kept and the error is returned; and a hook error inside `layout` aborts
the pass, lowers the guard via `finally`, and propagates to the caller. -/
theorem runHooks_pipeline_spec (W E : Type) :
    (∀ (pre post : List (W → W × Option E)) (w : W), (runHooks pre w).2 = none →
      runHooks (pre ++ post) w = runHooks post (runHooks pre w).1) ∧
    (∀ (pre post : List (W → W × Option E)) (e : E) (w : W), (runHooks pre w).2 = none →
      runHooks (pre ++ (fun v => (v, some e)) :: post) w = ((runHooks pre w).1, some e)) ∧
    (∀ (before after : List (MState → MState × Option E)) (s : MState) (e : E),
      s.isLayoutInProgress = false → s.items ≠ [] →
      (runHooks before { s with isLayoutInProgress := true }).2 = some e →
      layoutWithHooks before after s =
        ({ (runHooks before { s with isLayoutInProgress := true }).1 with
            isLayoutInProgress := false }, some e)) := by
  refine ⟨fun pre post w h => runHooks_append pre post w h,
    fun pre post e w h => runHooks_abort pre post e w h, ?_⟩
  intro before after s e hflag hitems hthrow
  have hie : s.items.isEmpty = false := by
    cases h' : s.items with
    | nil => exact absurd h' hitems
    | cons a l => rfl
  have hguard : (s.isLayoutInProgress || s.items.isEmpty) = false := by
    rw [hflag, hie]
    rfl
  unfold layoutWithHooks
  rw [if_neg (by rw [hguard]; exact Bool.false_ne_true)]
  simp only [hthrow]

/-- Witness for C6: a log-appending callback followed by a throwing one
keeps the first callback's effect and stops with the error. -/
theorem runHooks_pipeline_witness :
    runHooks [fun w => (w ++ [1], none), fun v => (v, some 7)] ([] : List ℕ) =
      ([1], some 7) := by
  have h := (runHooks_pipeline_spec (List ℕ) ℕ).2.1
    [fun w => (w ++ [1], none)] [] 7 [] (by rfl)
  have h2 : runHooks ([fun w : List ℕ => (w ++ [1], (none : Option ℕ))] ++
      (fun v => (v, some 7)) :: []) [] = ([1], some 7) := by
    rw [h]
    rfl
  exact h2

/-- C7: `addItems` appends to the tracked list and positions only the new
elements against the current column heights, leaving every previously
placed element's `(x, y, width)` assignment unchanged; `removeItems`
detaches the given elements from the tracked list and then runs a full
layout pass in which all remaining elements are re-placed from scratch
(zeroed column heights). -/
theorem addItems_removeItems_spec (s : MState) (newItems toRemove : List Item)
    (hflag : s.isLayoutInProgress = false)
    (hrem : toRemove.foldl removeFirst s.items ≠ []) :
    (addItems s newItems).1.items = s.items ++ newItems ∧
    (∀ i : ℕ, i ∉ newItems.map Item.id →
      placementOf (addItems s newItems).1.placements i = placementOf s.placements i) ∧
    (addItems s newItems).1.columns =
      placeHeights s.gapY s.columns (newItems.map Item.height) ∧
    (removeItems s toRemove).1.items = toRemove.foldl removeFirst s.items ∧
    (removeItems s toRemove).1.columns =
      placeHeights s.gapY (List.replicate s.columns.length 0)
        ((toRemove.foldl removeFirst s.items).map Item.height) ∧
    (removeItems s toRemove).1.placements =
      ((toRemove.foldl removeFirst s.items).foldl positionItem
        { s with items := toRemove.foldl removeFirst s.items
                 isLayoutInProgress := true
                 columns := List.replicate s.columns.length 0 }).placements := by
  have hie : (toRemove.foldl removeFirst s.items).isEmpty = false := by
    cases h' : toRemove.foldl removeFirst s.items with
    | nil => exact absurd h' hrem
    | cons a l => rfl
  have hguardR : ((({ s with items := toRemove.foldl removeFirst s.items } :
      MState)).isLayoutInProgress ||
      ({ s with items := toRemove.foldl removeFirst s.items } : MState).items.isEmpty)
      = false := by
    show (s.isLayoutInProgress || (toRemove.foldl removeFirst s.items).isEmpty) = false
    rw [hflag, hie]
    rfl
  refine ⟨?_, ?_, ?_, ?_, ?_, ?_⟩
  · show (newItems.foldl positionItem { s with items := s.items ++ newItems }).items =
      s.items ++ newItems
    rw [foldl_positionItem_items]
  · intro i hi
    show placementOf
        (newItems.foldl positionItem { s with items := s.items ++ newItems }).placements i =
      placementOf s.placements i
    rw [placementOf_foldl_ne newItems _ i hi]
  · show (newItems.foldl positionItem { s with items := s.items ++ newItems }).columns =
      placeHeights s.gapY s.columns (newItems.map Item.height)
    rw [foldl_positionItem_columns]
  · show (layout { s with items := toRemove.foldl removeFirst s.items }).1.items = _
    unfold layout
    rw [if_neg (by rw [hguardR]; exact Bool.false_ne_true)]
    show (passBody { s with items := toRemove.foldl removeFirst s.items, isLayoutInProgress := true }).items = _
    unfold passBody
    rw [foldl_positionItem_items]
  · show (layout { s with items := toRemove.foldl removeFirst s.items }).1.columns = _
    unfold layout
    rw [if_neg (by rw [hguardR]; exact Bool.false_ne_true)]
    show (passBody { s with items := toRemove.foldl removeFirst s.items, isLayoutInProgress := true }).columns = _
    unfold passBody
    rw [foldl_positionItem_columns]
  · show (layout { s with items := toRemove.foldl removeFirst s.items }).1.placements = _
    unfold layout
    rw [if_neg (by rw [hguardR]; exact Bool.false_ne_true)]
    rfl

/-- Witness for C7 on the concrete two-column state: one appended element
and one detached element. -/
theorem addItems_removeItems_witness :
    (addItems twoColState [⟨2, 8⟩]).1.items = twoColState.items ++ [⟨2, 8⟩] ∧
    (removeItems twoColState [⟨0, 10⟩]).1.items = [⟨1, 4⟩] := by
  have h := addItems_removeItems_spec twoColState [⟨2, 8⟩] [⟨0, 10⟩] rfl (by decide)
  refine ⟨h.1, ?_⟩
  rw [h.2.2.2.1]
  decide

end Masonry
